import Mathlib

/-!
Verification of the SGF parser library (rust-peg generated recursive-descent
parser in `parser.rs`, tree/value accessors and text codec in `sgf_node.rs`).

Modelling conventions:
* The input string is embedded as a `List Char`; positions are character
  indices.  In the source, positions are byte offsets into UTF-8 text and
  `char_range_at` advances by `len_utf8` bytes; at character boundaries the two
  coincide (every literal matched by the grammar is ASCII, so each step of the
  embedding advances by exactly one character where the source advances by the
  byte length of that character).
* `HashSet<&'static str>` (the `expected` set) is embedded as a duplicate-free
  `List String` in insertion order; `HashMap<String, Vec<String>>` (a node's
  properties) as an association list in insertion order.  No claim under
  verification depends on the iteration order of a map or set with more than
  one distinguished element.
* The mutable `ParseState` threaded by `&mut` through the descent is embedded
  by explicit state passing: every rule returns its `RuleResult` paired with
  the updated state.
* Rust's `regex` crate `Regex::replace_all` (used by the text codec) is
  embedded as a generic leftmost scan `replace_all` over the character list,
  with one matcher per regular expression; the regex crate uses leftmost-first
  alternation semantics and its `.` does not match a line feed.
* The recursive descent is embedded with an explicit recursion budget (`fuel`)
  so that every definition is a computable structural recursion.  Fuel is
  spent only on loop iterations and on entering a nested game tree, and every
  such step consumes at least one input character, so the generous budget
  `parse_fuel` is never exhausted on any input; exhaustion (returning the
  current loop position, or a plain failure) is unreachable.
-/

namespace Sgf

abbrev Input := List Char

/-- Convert a string literal to the embedded input representation. -/
def str (s : String) : Input := s.toList

/-- `ParseState` from `parser.rs`: furthest failure position, suppression
counter, and the set of expected descriptions at that position. -/
structure ParseState where
  max_err_pos : Nat
  suppress_fail : Nat
  expected : List String
deriving DecidableEq, Repr

def ParseState.new : ParseState :=
  { max_err_pos := 0, suppress_fail := 0, expected := [] }

/-- `HashSet::insert`: add the element unless it is already present. -/
def hash_insert (s : List String) (e : String) : List String :=
  if e ∈ s then s else s ++ [e]

/-- `ParseState::mark_failure`: record a failure at `pos` expecting
`expected`, unless failure recording is suppressed.  The source also returns
`Failed`; callers of this embedding pair the updated state with `Failed`
themselves. -/
def ParseState.mark_failure (st : ParseState) (pos : Nat) (expected : String) : ParseState :=
  if st.suppress_fail = 0 then
    let st1 := if pos > st.max_err_pos then { st with max_err_pos := pos, expected := [] } else st
    if pos = st1.max_err_pos then { st1 with expected := hash_insert st1.expected expected } else st1
  else st

/-- `RuleResult` from `parser.rs`. -/
inductive RuleResult (α : Type) : Type where
  | Matched (pos : Nat) (val : α)
  | Failed
deriving DecidableEq, Repr

/-- `ParseError` from `parser.rs`. -/
structure ParseError where
  line : Nat
  column : Nat
  offset : Nat
  expected : List String
deriving DecidableEq, Repr

/-- `pos_to_line`: 1-based line = line feeds strictly before `pos` plus one;
1-based column = characters since the last line feed plus one. -/
def pos_to_line (input : Input) (pos : Nat) : Nat × Nat :=
  let before := input.take pos
  (before.count '\n' + 1, (before.reverse.takeWhile (fun c => c ≠ '\n')).length + 1)

/-- `slice_eq`: match the literal `m` at `pos`. -/
def slice_eq (input : Input) (st : ParseState) (pos : Nat) (m : String) :
    RuleResult Unit × ParseState :=
  let l := m.length
  if input.length ≥ pos + l ∧ (input.drop pos).take l = m.toList then
    (.Matched (pos + l) (), st)
  else
    (.Failed, st.mark_failure pos m)

/-- `char_range_at`: the character at `pos` and the next position.  The
source `unwrap`s; every call site guards with `input.len() > pos`, so the
`[]` branch is unreachable. -/
def char_range_at (input : Input) (pos : Nat) : Char × Nat :=
  match input.drop pos with
  | c :: _ => (c, pos + 1)
  | [] => ('\u0000', pos + 1)

/-- The character class `[ \t\r\nv]` that the generated rules use as
whitespace (inlined at every whitespace repetition in the source). -/
def is_ws_char (c : Char) : Bool :=
  c == ' ' || c == '\t' || c == '\r' || c == '\n' || c == 'v'

/-! ## The tree data model (`sgf_node.rs`) -/

/-- `SgfNode`: a property map (association list in insertion order, see the
`HashMap` modelling convention above) and the owned children. -/
inductive SgfNode : Type where
  | mk (properties : List (String × List String)) (children : List SgfNode) : SgfNode

def SgfNode.properties : SgfNode → List (String × List String)
  | .mk p _ => p

def SgfNode.children : SgfNode → List SgfNode
  | .mk _ c => c

/-- `SgfNode::new`: a node with the given properties and no children. -/
def SgfNode.node_new (properties : List (String × List String)) : SgfNode :=
  .mk properties []

/-- `SgfCollection`: a newtype around the vector of root nodes. -/
structure SgfCollection where
  games : List SgfNode

/-- `SgfCollection::new`. -/
def SgfCollection.collection_new (games : List SgfNode) : SgfCollection :=
  ⟨games⟩

/-- `SgfNode::leaf_mut`, read-only: follow `children[0]` until a node with no
children is reached. -/
def SgfNode.leaf : SgfNode → SgfNode
  | .mk p [] => .mk p []
  | .mk _ (c :: _) => c.leaf

/-- The mutation `let l = s.leaf_mut(); l.children.append(&mut gs);` from the
game-tree rule action: append `gs` to the children of the `leaf_mut` node
(that node has no children, so its children become exactly `gs`). -/
def append_at_leaf (s : SgfNode) (gs : List SgfNode) : SgfNode :=
  match s with
  | .mk p [] => .mk p gs
  | .mk p (c :: cs) => .mk p (append_at_leaf c gs :: cs)

/-- `HashMap::get`. -/
def prop_lookup (props : List (String × List String)) (id : String) : Option (List String) :=
  match props with
  | [] => none
  | kv :: rest => if kv.1 = id then some kv.2 else prop_lookup rest id

/-- `HashMap::remove`: drop the binding of `id` (the association list holds at
most one binding per key, so dropping every match models removing the one
entry). -/
def map_remove (props : List (String × List String)) (id : String) :
    List (String × List String) :=
  match props with
  | [] => []
  | kv :: rest => if kv.1 = id then map_remove rest id else kv :: map_remove rest id

/-- `SgfNode::set_property`: `self.properties.remove(id);
self.properties.insert(id.to_string(), value);`. -/
def SgfNode.set_property (n : SgfNode) (id : String) (value : List String) : SgfNode :=
  .mk (map_remove n.properties id ++ [(id, value)]) n.children

/-- `encode_text`: insert a backslash before each of `]`, `\`, `:`. -/
def encode_text (s : String) : String :=
  String.mk (s.toList.foldr (fun c acc =>
    if c = ']' ∨ c = '\\' ∨ c = ':' then '\\' :: c :: acc else c :: acc) [])

/-- `SgfNode::set_point` (the source's `to_string` on a `String` is the
identity). -/
def SgfNode.set_point (n : SgfNode) (id : String) (value : String) : SgfNode :=
  n.set_property id [value]

/-- `SgfNode::set_number` (`SgfNumber = i32`, embedded as `Int`). -/
def SgfNode.set_number (n : SgfNode) (id : String) (value : Int) : SgfNode :=
  n.set_property id [toString value]

/-- `SgfNode::set_points`. -/
def SgfNode.set_points (n : SgfNode) (id : String) (value : List String) : SgfNode :=
  n.set_property id value

/-- `SgfNode::set_text`. -/
def SgfNode.set_text (n : SgfNode) (id : String) (value : String) : SgfNode :=
  n.set_property id [encode_text value]

/-- `SgfNode::set_color` (`SgfColor = char`). -/
def SgfNode.set_color (n : SgfNode) (id : String) (value : Char) : SgfNode :=
  n.set_property id [String.mk [value]]

/-! ## The canonical writer (`impl fmt::Display` in `sgf_node.rs`) -/

/-- The property part written by `Display for SgfNode`: for each binding, the
key followed by each value in brackets. -/
def props_text (props : List (String × List String)) : String :=
  props.foldl (fun acc kv =>
    acc ++ kv.1 ++ kv.2.foldl (fun a v => a ++ "[" ++ v ++ "]") "") ""

mutual

/-- `Display for SgfNode`: a semicolon, the properties, then the single child
inline, or every child (also none) parenthesised. -/
def SgfNode.display : SgfNode → String
  | .mk props children =>
    ";" ++ props_text props ++
      match children with
      | [c] => c.display
      | cs => display_children cs

def display_children : List SgfNode → String
  | [] => ""
  | c :: cs => "(" ++ c.display ++ ")" ++ display_children cs

end

/-- `Display for SgfCollection`: each game parenthesised. -/
def SgfCollection.display (c : SgfCollection) : String :=
  c.games.foldl (fun acc n => acc ++ "(" ++ n.display ++ ")") ""

/-! ## The text codec (`decode_text` in `sgf_node.rs`) -/

/-- `Regex::replace_all`: scan left to right; where the matcher fires, emit
its replacement and resume after the matched characters (the matcher always
consumes at least one character); elsewhere copy one character. -/
def replace_all (m : List Char → Option (Nat × List Char)) : List Char → List Char
  | [] => []
  | c :: rest =>
    match m (c :: rest) with
    | some (n, repl) => repl ++ replace_all m (rest.drop (n - 1))
    | none => c :: replace_all m rest
termination_by l => l.length
decreasing_by
  · simp only [List.length_cons]
    have := List.length_drop (n - 1) rest
    omega
  · simp

/-- The soft-line-break regular expression `\\(\r\n|\n\r|\n|\r)` with its
replacement by nothing; alternatives are tried leftmost-first. -/
def soft_break_m (l : List Char) : Option (Nat × List Char) :=
  match l with
  | '\\' :: '\r' :: '\n' :: _ => some (3, [])
  | '\\' :: '\n' :: '\r' :: _ => some (3, [])
  | '\\' :: '\n' :: _ => some (2, [])
  | '\\' :: '\r' :: _ => some (2, [])
  | _ => none

/-- The escape-removal regular expression `\\(.)` with replacement `$1`; the
regex `.` matches any character except a line feed. -/
def escape_m (l : List Char) : Option (Nat × List Char) :=
  match l with
  | '\\' :: c :: _ => if c = '\n' then none else some (2, [c])
  | _ => none

/-- `decode_text`: remove soft line breaks, then remove escapes. -/
def decode_text (s : String) : String :=
  String.mk (replace_all escape_m (replace_all soft_break_m s.toList))

/-! ## The grammar rules (`parser.rs`)

Each repetition loop of the generated parser is embedded as its own
function.  A step of a character-class repetition is exactly the generated
step: bounds check, `char_range_at`, class test, `mark_failure` on the
non-matching character.  A failing step breaks the loop at the current
repeat position. -/

/-- The inlined whitespace repetition `[ \t\r\nv]*` (zero or more, greedy);
returns the stop position.  It always "matches"; the stopping step marks a
failure at the stop position. -/
def ws_run (fuel : Nat) (input : Input) (st : ParseState) (pos : Nat) : Nat × ParseState :=
  match fuel with
  | 0 => (pos, st)
  | fuel + 1 =>
    if input.length > pos then
      let (c, next) := char_range_at input pos
      if is_ws_char c then ws_run fuel input st next
      else (pos, st.mark_failure pos "[ \t\r\nv]")
    else (pos, st.mark_failure pos "[ \t\r\nv]")

/-- The `[A-Z]` repetition inside `prop_ident`; returns the stop position. -/
def ident_run (fuel : Nat) (input : Input) (st : ParseState) (pos : Nat) : Nat × ParseState :=
  match fuel with
  | 0 => (pos, st)
  | fuel + 1 =>
    if input.length > pos then
      let (c, next) := char_range_at input pos
      if 'A' ≤ c ∧ c ≤ 'Z' then ident_run fuel input st next
      else (pos, st.mark_failure pos "[A-Z]")
    else (pos, st.mark_failure pos "[A-Z]")

/-- The bracket-content repetition inside `prop_value`: each step is the
choice `"\\]" / [^]]`; returns the stop position. -/
def value_run (fuel : Nat) (input : Input) (st : ParseState) (pos : Nat) : Nat × ParseState :=
  match fuel with
  | 0 => (pos, st)
  | fuel + 1 =>
    match slice_eq input st pos "\\]" with
    | (.Matched next _, st) => value_run fuel input st next
    | (.Failed, st) =>
      if input.length > pos then
        let (c, next) := char_range_at input pos
        if c = ']' then (pos, st.mark_failure pos "[^]]")
        else value_run fuel input st next
      else (pos, st.mark_failure pos "[^]]")

/-- `__parse_prop_ident`: one or more `[A-Z]`, returning the matched slice. -/
def parse_prop_ident (fuel : Nat) (input : Input) (st : ParseState) (pos : Nat) :
    RuleResult String × ParseState :=
  let (newpos, st) := ident_run fuel input st pos
  if pos < newpos then
    (.Matched newpos (String.mk ((input.drop pos).take (newpos - pos))), st)
  else
    (.Failed, st)

/-- `__parse_prop_value`: `Ws "[" content "]" Ws`, returning the raw content
slice. -/
def parse_prop_value (fuel : Nat) (input : Input) (st : ParseState) (pos : Nat) :
    RuleResult String × ParseState :=
  let (pos, st) := ws_run fuel input st pos
  match slice_eq input st pos "[" with
  | (.Failed, st) => (.Failed, st)
  | (.Matched pos _, st) =>
    let str_start := pos
    let (pos2, st) := value_run fuel input st pos
    match slice_eq input st pos2 "]" with
    | (.Failed, st) => (.Failed, st)
    | (.Matched pos3 _, st) =>
      let (pos4, st) := ws_run fuel input st pos3
      (.Matched pos4 (String.mk ((input.drop str_start).take (pos2 - str_start))), st)

/-- The `prop_value` repetition inside `property` (collecting values). -/
def values_run (fuel : Nat) (input : Input) (st : ParseState) (pos : Nat)
    (acc : List String) : (Nat × List String) × ParseState :=
  match fuel with
  | 0 => ((pos, acc), st)
  | fuel + 1 =>
    match parse_prop_value fuel input st pos with
    | (.Matched np v, st) => values_run fuel input st np (acc ++ [v])
    | (.Failed, st) => ((pos, acc), st)

/-- `__parse_property`: `Ws PropIdent PropValue+ Ws`. -/
def parse_property (fuel : Nat) (input : Input) (st : ParseState) (pos : Nat) :
    RuleResult (String × List String) × ParseState :=
  let (pos, st) := ws_run fuel input st pos
  match parse_prop_ident fuel input st pos with
  | (.Failed, st) => (.Failed, st)
  | (.Matched pos i, st) =>
    let ((pos2, vs), st) := values_run fuel input st pos []
    if vs.length ≥ 1 then
      let (pos3, st) := ws_run fuel input st pos2
      (.Matched pos3 (i, vs), st)
    else
      (.Failed, st)

/-- The `property` repetition inside `node` (zero or more, collecting). -/
def props_run (fuel : Nat) (input : Input) (st : ParseState) (pos : Nat)
    (acc : List (String × List String)) :
    (Nat × List (String × List String)) × ParseState :=
  match fuel with
  | 0 => ((pos, acc), st)
  | fuel + 1 =>
    match parse_property fuel input st pos with
    | (.Matched np v, st) => props_run fuel input st np (acc ++ [v])
    | (.Failed, st) => ((pos, acc), st)

/-- The node-rule action: build the property map from the parsed pairs in
order, aborting at the first repeated identifier. -/
def build_props (props : List (String × List String))
    (h : List (String × List String)) :
    Except String (List (String × List String)) :=
  match props with
  | [] => .ok h
  | e :: rest =>
    if (prop_lookup h e.1).isSome then .error "duplicated properties"
    else build_props rest (h ++ [e])

/-- `__parse_node`: `Ws ";" Property* Ws`, then the map-building action; an
`Err` from the action is reported through `mark_failure` at the node's end
position. -/
def parse_node (fuel : Nat) (input : Input) (st : ParseState) (pos : Nat) :
    RuleResult SgfNode × ParseState :=
  let (pos, st) := ws_run fuel input st pos
  match slice_eq input st pos ";" with
  | (.Failed, st) => (.Failed, st)
  | (.Matched pos _, st) =>
    let ((pos2, props), st) := props_run fuel input st pos []
    let (pos3, st) := ws_run fuel input st pos2
    match build_props props [] with
    | .ok h => (.Matched pos3 (SgfNode.node_new h), st)
    | .error expected => (.Failed, st.mark_failure pos3 expected)

/-- The `node` repetition inside `sequence` (collecting). -/
def nodes_run (fuel : Nat) (input : Input) (st : ParseState) (pos : Nat)
    (acc : List SgfNode) : (Nat × List SgfNode) × ParseState :=
  match fuel with
  | 0 => ((pos, acc), st)
  | fuel + 1 =>
    match parse_node fuel input st pos with
    | (.Matched np v, st) => nodes_run fuel input st np (acc ++ [v])
    | (.Failed, st) => ((pos, acc), st)

/-- The loop of the sequence-rule action: `for mut n in i { n.children.push(l);
l = n; }` over the reversed node list. -/
def chain_fold (l : SgfNode) (ns : List SgfNode) : SgfNode :=
  match ns with
  | [] => l
  | n :: rest => chain_fold (.mk n.properties (n.children ++ [l])) rest

/-- The sequence-rule action: reverse the parsed nodes and fold them into a
chain.  The source `unwrap`s the first element; the repetition guarantees at
least one node, so the `[]` branch is unreachable. -/
def chain_nodes (ns : List SgfNode) : SgfNode :=
  match ns.reverse with
  | [] => .mk [] []
  | l :: rest => chain_fold l rest

/-- `__parse_sequence`: `Ws Node+ Ws`, then the chain-building action. -/
def parse_sequence (fuel : Nat) (input : Input) (st : ParseState) (pos : Nat) :
    RuleResult SgfNode × ParseState :=
  let (pos, st) := ws_run fuel input st pos
  let ((pos2, ns), st) := nodes_run fuel input st pos []
  if ns.length ≥ 1 then
    let (pos3, st) := ws_run fuel input st pos2
    (.Matched pos3 (chain_nodes ns), st)
  else
    (.Failed, st)

mutual

/-- `__parse_game_tree`: `Ws "(" Sequence GameTree* ")" Ws`, then the
variation-attaching action (`leaf_mut` plus `children.append`). -/
def parse_game_tree (fuel : Nat) (input : Input) (st : ParseState) (pos : Nat) :
    RuleResult SgfNode × ParseState :=
  match fuel with
  | 0 => (.Failed, st)
  | fuel + 1 =>
    let (pos, st) := ws_run fuel input st pos
    match slice_eq input st pos "(" with
    | (.Failed, st) => (.Failed, st)
    | (.Matched pos _, st) =>
      match parse_sequence fuel input st pos with
      | (.Failed, st) => (.Failed, st)
      | (.Matched pos s, st) =>
        let ((pos2, gs), st) := trees_run fuel input st pos []
        match slice_eq input st pos2 ")" with
        | (.Failed, st) => (.Failed, st)
        | (.Matched pos3 _, st) =>
          let (pos4, st) := ws_run fuel input st pos3
          (.Matched pos4 (append_at_leaf s gs), st)

/-- The `game_tree` repetition (used inside `game_tree` and `collection`). -/
def trees_run (fuel : Nat) (input : Input) (st : ParseState) (pos : Nat)
    (acc : List SgfNode) : (Nat × List SgfNode) × ParseState :=
  match fuel with
  | 0 => ((pos, acc), st)
  | fuel + 1 =>
    match parse_game_tree fuel input st pos with
    | (.Matched np v, st) => trees_run fuel input st np (acc ++ [v])
    | (.Failed, st) => ((pos, acc), st)

end

/-- `__parse_collection`: `GameTree+`, wrapped by `SgfCollection::new`. -/
def parse_collection (fuel : Nat) (input : Input) (st : ParseState) (pos : Nat) :
    RuleResult SgfCollection × ParseState :=
  let ((pos2, gs), st) := trees_run fuel input st pos []
  if gs.length ≥ 1 then
    (.Matched pos2 (SgfCollection.collection_new gs), st)
  else
    (.Failed, st)

/-- The recursion budget used to instantiate the fueled embedding (see the
modelling conventions above: a budget above the input length is never
exhausted, and this one is far above it). -/
def parse_fuel (input : Input) : Nat := 32 * (input.length + 2)

/-- `pub fn collection`, the parse entry point: run the top-level rule at
position 0; succeed only when the match reaches end of input, otherwise
build the `ParseError` from the failure tracker's furthest position. -/
def collection (input : Input) : Except ParseError SgfCollection :=
  match parse_collection (parse_fuel input) input ParseState.new 0 with
  | (.Matched pos v, st1) =>
    if pos = input.length then .ok v
    else
      let lc := pos_to_line input st1.max_err_pos
      .error { line := lc.1, column := lc.2, offset := st1.max_err_pos,
               expected := st1.expected }
  | (.Failed, st1) =>
    let lc := pos_to_line input st1.max_err_pos
    .error { line := lc.1, column := lc.2, offset := st1.max_err_pos,
             expected := st1.expected }

/-! ## Claim-side definitions

The following definitions restate, in direct recursive form, the shapes that
the specification describes; the theorems below compare them with the
definitions taken from the source. -/

/-- The spec's straight chain: root `n1`, each node holding the next as its
only child. -/
def chain_of : List SgfNode → SgfNode
  | [] => .mk [] []
  | [n] => n
  | n :: rest => .mk n.properties [chain_of rest]

/-- The spec's chain with the variation list `gs` attached as the children of
the chain's last node. -/
def chain_attach : List SgfNode → List SgfNode → SgfNode
  | [], _ => .mk [] []
  | [n], gs => .mk n.properties gs
  | n :: rest, gs => .mk n.properties [chain_attach rest gs]

/-- The spec's first decoding stage, direct form: delete every backslash
followed by CRLF, LFCR, LF, or CR, in that order of preference. -/
def strip_soft_breaks : List Char → List Char
  | [] => []
  | '\\' :: '\r' :: '\n' :: rest => strip_soft_breaks rest
  | '\\' :: '\n' :: '\r' :: rest => strip_soft_breaks rest
  | '\\' :: '\n' :: rest => strip_soft_breaks rest
  | '\\' :: '\r' :: rest => strip_soft_breaks rest
  | c :: rest => c :: strip_soft_breaks rest

/-- The second decoding stage as the code performs it, direct form: replace
each backslash-plus-character pair by the bare character, except that a
backslash immediately followed by a line feed is kept (the regex `.` does
not match a line feed). -/
def unescape_rest : List Char → List Char
  | [] => []
  | '\\' :: c :: rest =>
    if c = '\n' then '\\' :: unescape_rest (c :: rest) else c :: unescape_rest rest
  | c :: rest => c :: unescape_rest rest

/-- The second decoding stage as the specification words it: replace every
remaining backslash-plus-character pair by the bare character, with no
exception. -/
def unescape_all : List Char → List Char
  | [] => []
  | '\\' :: c :: rest => c :: unescape_all rest
  | c :: rest => c :: unescape_all rest

/-- `decode_text` as the specification describes it. -/
def decode_text_claimed (s : String) : String :=
  String.mk (unescape_all (strip_soft_breaks s.toList))

/-- Whether a parse result is a success. -/
def is_ok {ε α : Type} : Except ε α → Bool
  | .ok _ => true
  | .error _ => false

/-- The parse error of a failed result, if any. -/
def error_info {α : Type} : Except ParseError α → Option ParseError
  | .error e => some e
  | .ok _ => none

/-- The `i`-th root node of a successful parse (a default empty node
otherwise). -/
def nth_game (r : Except ParseError SgfCollection) (i : Nat) : SgfNode :=
  match r with
  | .ok c => c.games.getD i (.mk [] [])
  | .error _ => .mk [] []

/-- The `i`-th child of a node (a default empty node when out of range). -/
def nth_child (n : SgfNode) (i : Nat) : SgfNode :=
  n.children.getD i (.mk [] [])

/-- The canonical serialization of a successful parse, if any. -/
def display_result (r : Except ParseError SgfCollection) : Option String :=
  match r with
  | .ok c => some c.display
  | .error _ => none

/-! ## Helper lemmas -/

theorem drop_head (input : Input) (pos : Nat) (c : Char) (rest : List Char)
    (h : input.drop pos = c :: rest) :
    pos < input.length ∧ char_range_at input pos = (c, pos + 1) ∧
      input.drop (pos + 1) = rest := by
  have hl := List.length_drop pos input
  rw [h] at hl
  refine ⟨by simp at hl; omega, by simp [char_range_at, h], ?_⟩
  have h1 : input.drop (pos + 1) = (input.drop pos).drop 1 := by
    rw [List.drop_drop, Nat.add_comm]
  rw [h1, h, List.drop_one, List.tail_cons]

theorem drop_nil (input : Input) (pos : Nat) (h : input.drop pos = []) :
    ¬ input.length > pos := by
  have hl := List.length_drop pos input
  rw [h] at hl
  simp at hl
  omega

theorem ws_run_eq (fuel : Nat) :
    ∀ (input : Input) (st : ParseState) (pos : Nat),
      input.length - pos < fuel →
      ws_run fuel input st pos =
        (pos + ((input.drop pos).takeWhile is_ws_char).length,
         st.mark_failure (pos + ((input.drop pos).takeWhile is_ws_char).length)
           "[ \t\r\nv]") := by
  induction fuel with
  | zero => intro input st pos h; omega
  | succ fuel ih =>
    intro input st pos h
    match hd : input.drop pos with
    | [] =>
      have hnl := drop_nil input pos hd
      simp [ws_run, hnl, hd]
    | c :: rest =>
      obtain ⟨hp, hc, hd1⟩ := drop_head input pos c rest hd
      by_cases hw : is_ws_char c
      · have hlt : input.length - (pos + 1) < fuel := by omega
        have hrec := ih input st (pos + 1) hlt
        rw [hd1] at hrec
        rw [ws_run]
        simp only [hd, hc, hp, if_pos, hw, if_true, gt_iff_lt]
        rw [hrec, List.takeWhile_cons, if_pos hw, List.length_cons]
        have harith : pos + ((rest.takeWhile is_ws_char).length + 1) =
            pos + 1 + (rest.takeWhile is_ws_char).length := by omega
        rw [harith]
      · rw [ws_run]
        rw [if_pos hp, hc]
        simp only [hw, if_false, Bool.false_eq_true]
        rw [List.takeWhile_cons, if_neg hw]
        simp

theorem ident_run_all (fuel : Nat) :
    ∀ (input : Input) (st : ParseState) (pos : Nat),
      pos ≤ input.length →
      input.length - pos < fuel →
      (∀ c ∈ input.drop pos, 'A' ≤ c ∧ c ≤ 'Z') →
      ident_run fuel input st pos =
        (input.length, st.mark_failure input.length "[A-Z]") := by
  induction fuel with
  | zero => intro input st pos hle h; omega
  | succ fuel ih =>
    intro input st pos hle h hall
    match hd : input.drop pos with
    | [] =>
      have hnl := drop_nil input pos hd
      have hpos : input.length = pos := by omega
      simp [ident_run, hnl, hpos]
    | c :: rest =>
      obtain ⟨hp, hc, hd1⟩ := drop_head input pos c rest hd
      have hcu : 'A' ≤ c ∧ c ≤ 'Z' := hall c (by rw [hd]; exact List.mem_cons_self c rest)
      have hlt : input.length - (pos + 1) < fuel := by omega
      have hall1 : ∀ x ∈ input.drop (pos + 1), 'A' ≤ x ∧ x ≤ 'Z' := by
        intro x hx
        rw [hd1] at hx
        exact hall x (by rw [hd]; exact List.mem_cons_of_mem c hx)
      rw [ident_run]
      simp only [hd, hc, hp, if_pos, if_true, gt_iff_lt]
      rw [if_pos hcu]
      exact ih input st (pos + 1) (by omega) hlt hall1

theorem chain_fold_append (xs ys : List SgfNode) :
    ∀ l : SgfNode, chain_fold l (xs ++ ys) = chain_fold (chain_fold l xs) ys := by
  induction xs with
  | nil => intro l; rfl
  | cons x xs ih => intro l; simp only [List.cons_append, chain_fold]; exact ih _

theorem chain_nodes_eq :
    ∀ ns : List SgfNode, ns ≠ [] → (∀ n ∈ ns, n.children = []) →
      chain_nodes ns = chain_of ns := by
  intro ns
  induction ns with
  | nil => intro h; exact absurd rfl h
  | cons n ns ih =>
    intro _ hc
    match ns with
    | [] =>
      simp [chain_nodes, chain_of, chain_fold]
    | m :: ms =>
      have hne : (m :: ms) ≠ [] := by simp
      have hcm : ∀ x ∈ m :: ms, x.children = [] := fun x hx => hc x (List.mem_cons_of_mem n hx)
      have hrec := ih hne hcm
      have hnc : n.children = [] := hc n (List.mem_cons_self n (m :: ms))
      match hr : (m :: ms).reverse with
      | [] => exact absurd (List.reverse_eq_nil_iff.mp hr) hne
      | h0 :: t0 =>
        have h1 : (n :: m :: ms).reverse = h0 :: (t0 ++ [n]) := by
          rw [List.reverse_cons, hr]; rfl
        have hcn : chain_nodes (m :: ms) = chain_fold h0 t0 := by
          unfold chain_nodes; rw [hr]
        unfold chain_nodes
        rw [h1]
        show chain_fold h0 (t0 ++ [n]) = chain_of (n :: m :: ms)
        rw [chain_fold_append]
        simp only [chain_fold]
        rw [hnc, List.nil_append, ← hcn, hrec]
        rfl

theorem chain_of_properties :
    ∀ (n : SgfNode) (ns : List SgfNode),
      (chain_of (n :: ns)).properties = n.properties := by
  intro n ns
  match ns with
  | [] => rfl
  | m :: ms => rfl

theorem chain_of_leaf :
    ∀ ns : List SgfNode, ns ≠ [] → (∀ n ∈ ns, n.children = []) →
      (chain_of ns).leaf = ns.getLastD (SgfNode.mk [] []) := by
  intro ns
  induction ns with
  | nil => intro h; exact absurd rfl h
  | cons n ns ih =>
    intro _ hc
    match ns with
    | [] =>
      have hnc : n.children = [] := hc n (List.mem_cons_self n [])
      match n with
      | .mk p cs =>
        simp only [SgfNode.children] at hnc
        subst hnc
        rfl
    | m :: ms =>
      have hne : (m :: ms) ≠ [] := by simp
      have hcm : ∀ x ∈ m :: ms, x.children = [] := fun x hx => hc x (List.mem_cons_of_mem n hx)
      have hrec := ih hne hcm
      show (SgfNode.mk n.properties [chain_of (m :: ms)]).leaf = _
      rw [SgfNode.leaf]
      rw [hrec]
      rfl

theorem append_at_leaf_chain :
    ∀ (ns gs : List SgfNode), ns ≠ [] → (∀ n ∈ ns, n.children = []) →
      append_at_leaf (chain_of ns) gs = chain_attach ns gs := by
  intro ns gs
  induction ns with
  | nil => intro h; exact absurd rfl h
  | cons n ns ih =>
    intro _ hc
    match ns with
    | [] =>
      have hnc : n.children = [] := hc n (List.mem_cons_self n [])
      match n with
      | .mk p cs =>
        simp only [SgfNode.children] at hnc
        subst hnc
        rfl
    | m :: ms =>
      have hne : (m :: ms) ≠ [] := by simp
      have hcm : ∀ x ∈ m :: ms, x.children = [] := fun x hx => hc x (List.mem_cons_of_mem n hx)
      have hrec := ih hne hcm
      show append_at_leaf (SgfNode.mk n.properties [chain_of (m :: ms)]) gs = _
      rw [append_at_leaf]
      rw [hrec]
      rfl

theorem prop_lookup_append (h1 h2 : List (String × List String)) (k : String) :
    prop_lookup (h1 ++ h2) k =
      match prop_lookup h1 k with
      | some v => some v
      | none => prop_lookup h2 k := by
  induction h1 with
  | nil => rfl
  | cons kv rest ih =>
    by_cases hk : kv.1 = k
    · simp [prop_lookup, hk]
    · simp only [List.cons_append, prop_lookup, if_neg hk]
      exact ih

theorem build_props_hit (props : List (String × List String)) :
    ∀ (h : List (String × List String)) (k : String),
      k ∈ props.map Prod.fst → (prop_lookup h k).isSome →
      build_props props h = Except.error "duplicated properties" := by
  induction props with
  | nil => intro h k hk; simp at hk
  | cons e rest ih =>
    intro h k hk hs
    by_cases he : (prop_lookup h e.1).isSome
    · simp [build_props, he]
    · rw [build_props, if_neg he]
      have hk2 : k ∈ rest.map Prod.fst := by
        rcases List.mem_cons.mp hk with h1 | h1
        · exfalso; rw [← h1] at he; exact he hs
        · exact h1
      have hs2 : (prop_lookup (h ++ [e]) k).isSome := by
        rw [prop_lookup_append]
        rcases ho : prop_lookup h k with _ | v
        · rw [ho] at hs; simp at hs
        · simp
      exact ih (h ++ [e]) k hk2 hs2

theorem build_props_dup (props : List (String × List String)) :
    ¬ (props.map Prod.fst).Nodup →
    ∀ h : List (String × List String),
      build_props props h = Except.error "duplicated properties" := by
  induction props with
  | nil => intro hd; exact absurd List.nodup_nil hd
  | cons e rest ih =>
    intro hd h
    by_cases he : (prop_lookup h e.1).isSome
    · simp [build_props, he]
    · rw [build_props, if_neg he]
      rw [List.map_cons, List.nodup_cons] at hd
      push_neg at hd
      by_cases hmem : e.1 ∈ rest.map Prod.fst
      · refine build_props_hit rest (h ++ [e]) e.1 hmem ?_
        rw [prop_lookup_append]
        rcases ho : prop_lookup h e.1 with _ | v
        · simp [prop_lookup]
        · rw [ho] at he; simp at he
      · exact ih (fun hnd => (hd hmem) hnd) (h ++ [e])

theorem prop_lookup_remove_self (props : List (String × List String)) (id : String) :
    prop_lookup (map_remove props id) id = none := by
  induction props with
  | nil => rfl
  | cons kv rest ih =>
    by_cases hk : kv.1 = id
    · simp [map_remove, hk, ih]
    · simp [map_remove, hk, prop_lookup, ih]

theorem prop_lookup_remove_other (props : List (String × List String))
    (id id2 : String) (h : id2 ≠ id) :
    prop_lookup (map_remove props id) id2 = prop_lookup props id2 := by
  induction props with
  | nil => rfl
  | cons kv rest ih =>
    by_cases hk : kv.1 = id
    · rw [map_remove, if_pos hk, ih, prop_lookup, if_neg (by rw [hk]; exact fun he => h he.symm)]
    · rw [map_remove, if_neg hk]
      by_cases hk2 : kv.1 = id2
      · simp [prop_lookup, hk2]
      · simp [prop_lookup, hk2, ih]

theorem replace_all_soft (l : List Char) :
    replace_all soft_break_m l = strip_soft_breaks l := by
  induction l using strip_soft_breaks.induct <;>
    simp_all [replace_all, soft_break_m, strip_soft_breaks]

theorem replace_all_escape (l : List Char) :
    replace_all escape_m l = unescape_rest l := by
  induction l using unescape_rest.induct <;>
    simp_all [replace_all, escape_m, unescape_rest]

theorem decode_text_eq (s : String) :
    decode_text s = String.mk (unescape_rest (strip_soft_breaks s.toList)) := by
  rw [decode_text, replace_all_soft, replace_all_escape]

/-! ## The claims -/

/-- C6: `mark_failure` with the suppress counter at zero: a failure beyond
`max_err_pos` moves `max_err_pos` there and clears the expected set before
inserting the description; a failure at `max_err_pos` inserts the
description; an earlier failure changes nothing; hence `max_err_pos` never
decreases and the expected set holds only descriptions recorded at the
current `max_err_pos`. -/
theorem claim_C6 (st : ParseState) (pos : Nat) (d : String)
    (h : st.suppress_fail = 0) :
    (st.max_err_pos < pos →
      st.mark_failure pos d =
        { max_err_pos := pos, suppress_fail := st.suppress_fail, expected := [d] }) ∧
    (pos = st.max_err_pos →
      st.mark_failure pos d = { st with expected := hash_insert st.expected d }) ∧
    (pos < st.max_err_pos → st.mark_failure pos d = st) ∧
    st.max_err_pos ≤ (st.mark_failure pos d).max_err_pos := by
  refine ⟨?_, ?_, ?_, ?_⟩
  · intro hlt
    simp [ParseState.mark_failure, h, hlt, hash_insert]
  · intro heq
    subst heq
    simp [ParseState.mark_failure, h]
  · intro hlt
    have hn1 : ¬ st.max_err_pos < pos := by omega
    have hn2 : ¬ pos = st.max_err_pos := by omega
    simp [ParseState.mark_failure, h, hn1, hn2]
  · by_cases hgt : st.max_err_pos < pos
    · simp [ParseState.mark_failure, h, hgt]
      omega
    · simp [ParseState.mark_failure, h, hgt]
      split_ifs <;> simp

/-- C7: the whitespace-class rule accepts exactly space, tab, carriage
return, line feed, and the literal letter `v`, and (given enough fuel, which
`parse_fuel` always provides) matches the maximal run of such characters
from the current position. -/
theorem claim_C7 :
    (∀ c : Char, is_ws_char c = true ↔
      (c = ' ' ∨ c = '\t' ∨ c = '\r' ∨ c = '\n' ∨ c = 'v')) ∧
    (∀ (fuel : Nat) (input : Input) (st : ParseState) (pos : Nat),
      input.length - pos < fuel →
      ws_run fuel input st pos =
        (pos + ((input.drop pos).takeWhile is_ws_char).length,
         st.mark_failure (pos + ((input.drop pos).takeWhile is_ws_char).length)
           "[ \t\r\nv]")) := by
  refine ⟨?_, fun fuel input st pos h => ws_run_eq fuel input st pos h⟩
  intro c
  simp [is_ws_char, or_assoc]

/-- C2: the identifier rule accepts any nonempty run of uppercase letters
(no maximum length), and the input with the three-letter identifier `FFF`
parses successfully. -/
theorem claim_C2 :
    (∀ l : List Char, l ≠ [] → (∀ c ∈ l, 'A' ≤ c ∧ c ≤ 'Z') →
      ∀ st : ParseState, ∃ st2 : ParseState,
        parse_prop_ident (l.length + 1) l st 0 =
          (RuleResult.Matched l.length (String.mk l), st2)) ∧
    is_ok (collection (str "(;CA[UTF-8]FFF[4])")) = true := by
  constructor
  · intro l hne hall st
    refine ⟨st.mark_failure l.length "[A-Z]", ?_⟩
    unfold parse_prop_ident
    rw [ident_run_all (l.length + 1) l st 0 (by omega) (by omega) (by simpa using hall)]
    have hpos : 0 < l.length := List.length_pos.mpr hne
    simp [hpos]
  · decide

/-- C4: the sequence-rule assembler turns the parsed nodes `n1, …, nk`
(all built with no children) into the straight chain rooted at `n1`, each
node holding the next as its only child, with `nk` the leaf reached by
repeated descent into the first child. -/
theorem claim_C4 (ns : List SgfNode) (h1 : ns ≠ [])
    (h2 : ∀ n ∈ ns, n.children = []) :
    chain_nodes ns = chain_of ns ∧
    (chain_nodes ns).properties = (ns.headD (SgfNode.mk [] [])).properties ∧
    (chain_nodes ns).leaf = ns.getLastD (SgfNode.mk [] []) := by
  have he := chain_nodes_eq ns h1 h2
  refine ⟨he, ?_, ?_⟩
  · rw [he]
    rcases ns with _ | ⟨n, rest⟩
    · exact absurd rfl h1
    · rw [chain_of_properties]; rfl
  · rw [he]; exact chain_of_leaf ns h1 h2

/-- C5: the game-tree rule appends the nested game trees, in parse order, as
the children of the deepest node reached from the chain's root by recursing
into the first child (`leaf_mut`); on the nested-variation example the root's
chain tail has exactly 2 children and the first child's chain tail has
exactly 2 children. -/
theorem claim_C5 :
    (∀ (ns gs : List SgfNode), ns ≠ [] → (∀ n ∈ ns, n.children = []) →
      append_at_leaf (chain_nodes ns) gs = chain_attach ns gs) ∧
    is_ok (collection (str
      "(;FF[4]C[root](;C[a];C[b](;C[c])(;C[d];C[e]))(;C[f](;C[g];C[h];C[i])(;C[j])))")) = true ∧
    (nth_game (collection (str
      "(;FF[4]C[root](;C[a];C[b](;C[c])(;C[d];C[e]))(;C[f](;C[g];C[h];C[i])(;C[j])))")) 0).children.length = 2 ∧
    (nth_child (nth_child (nth_game (collection (str
      "(;FF[4]C[root](;C[a];C[b](;C[c])(;C[d];C[e]))(;C[f](;C[g];C[h];C[i])(;C[j])))")) 0) 0) 0).children.length = 2 := by
  refine ⟨fun ns gs h1 h2 => ?_, by decide, by decide, by decide⟩
  rw [chain_nodes_eq ns h1 h2]
  exact append_at_leaf_chain ns gs h1 h2

/-- C10: every property setter rebinds the identifier to exactly the new
value list through `set_property`, silently overwriting any existing
binding, while every other identifier's value list and the children list
are unchanged. -/
theorem claim_C10 :
    (∀ (n : SgfNode) (id : String) (value : List String),
      prop_lookup (n.set_property id value).properties id = some value ∧
      (∀ id2 : String, id2 ≠ id →
        prop_lookup (n.set_property id value).properties id2 =
          prop_lookup n.properties id2) ∧
      (n.set_property id value).children = n.children) ∧
    (∀ (n : SgfNode) (id : String) (v : String),
      n.set_point id v = n.set_property id [v]) ∧
    (∀ (n : SgfNode) (id : String) (v : Int),
      n.set_number id v = n.set_property id [toString v]) ∧
    (∀ (n : SgfNode) (id : String) (v : String),
      n.set_text id v = n.set_property id [encode_text v]) ∧
    (∀ (n : SgfNode) (id : String) (v : List String),
      n.set_points id v = n.set_property id v) := by
  refine ⟨fun n id value => ⟨?_, fun id2 hne => ?_, rfl⟩,
    fun _ _ _ => rfl, fun _ _ _ => rfl, fun _ _ _ => rfl, fun _ _ _ => rfl⟩
  · show prop_lookup (map_remove n.properties id ++ [(id, value)]) id = some value
    rw [prop_lookup_append, prop_lookup_remove_self]
    simp [prop_lookup]
  · show prop_lookup (map_remove n.properties id ++ [(id, value)]) id2 =
      prop_lookup n.properties id2
    rw [prop_lookup_append, prop_lookup_remove_other _ _ _ hne]
    rcases ho : prop_lookup n.properties id2 with _ | v
    · simp [prop_lookup, if_neg (fun h : id = id2 => hne h.symm)]
    · rfl

/-- C1: the entry point returns `Ok` exactly when the top-level rule matches
and the matched length equals the whole input's length; otherwise it returns
a `ParseError` whose offset is the failure tracker's furthest position and
whose line and column are computed from that offset by `pos_to_line`. -/
theorem claim_C1 (input : Input) :
    ((∃ v, collection input = Except.ok v) ↔
      (∃ pos v, (parse_collection (parse_fuel input) input ParseState.new 0).1 =
          RuleResult.Matched pos v ∧ pos = input.length)) ∧
    (∀ e : ParseError, collection input = Except.error e →
      e.offset = (parse_collection (parse_fuel input) input ParseState.new 0).2.max_err_pos ∧
      e.line = (pos_to_line input e.offset).1 ∧
      e.column = (pos_to_line input e.offset).2 ∧
      e.expected = (parse_collection (parse_fuel input) input ParseState.new 0).2.expected) := by
  rcases hr : parse_collection (parse_fuel input) input ParseState.new 0 with ⟨r, st1⟩
  cases r with
  | Matched p v =>
    have hc : collection input =
        if p = input.length then Except.ok v
        else
          Except.error { line := (pos_to_line input st1.max_err_pos).1,
                         column := (pos_to_line input st1.max_err_pos).2,
                         offset := st1.max_err_pos, expected := st1.expected } := by
      unfold collection
      rw [hr]
    by_cases hp : p = input.length
    · rw [if_pos hp] at hc
      constructor
      · constructor
        · intro _; exact ⟨p, v, rfl, hp⟩
        · intro _; exact ⟨v, hc⟩
      · intro e he
        rw [hc] at he
        exact absurd he (by simp)
    · rw [if_neg hp] at hc
      constructor
      · constructor
        · rintro ⟨w, hw⟩
          rw [hc] at hw
          exact absurd hw (by simp)
        · rintro ⟨p2, v2, hm, hl⟩
          injection hm with hp2 _
          exact absurd (hp2 ▸ hl) hp
      · intro e he
        rw [hc] at he
        injection he with he
        subst he
        exact ⟨rfl, rfl, rfl, rfl⟩
  | Failed =>
    have hc : collection input =
        Except.error { line := (pos_to_line input st1.max_err_pos).1,
                       column := (pos_to_line input st1.max_err_pos).2,
                       offset := st1.max_err_pos, expected := st1.expected } := by
      unfold collection
      rw [hr]
    constructor
    · constructor
      · rintro ⟨w, hw⟩
        rw [hc] at hw
        exact absurd hw (by simp)
      · rintro ⟨p2, v2, hm, _⟩
        exact absurd hm (by simp)
    · intro e he
      rw [hc] at he
      injection he with he
      subst he
      exact ⟨rfl, rfl, rfl, rfl⟩

/-- C3: a node that binds the same identifier twice makes the map-building
action abort with the description "duplicated properties", reported through
the same failure tracker as syntax failures; on the duplicate-`CA` example
the parse fails with that description recorded at the node's end position,
offset 16. -/
theorem claim_C3 :
    (∀ props : List (String × List String), ¬ (props.map Prod.fst).Nodup →
      build_props props [] = Except.error "duplicated properties") ∧
    (∃ e : ParseError, error_info (collection (str "(;CA[UTF-8]CA[4])")) = some e ∧
      "duplicated properties" ∈ e.expected ∧ e.offset = 16) := by
  refine ⟨fun props hd => build_props_dup props hd [], ?_⟩
  exact ⟨⟨1, 17, 16, ["[ \t\r\nv]", "[", "[A-Z]", "duplicated properties"]⟩,
    by decide, by decide, by decide⟩

/-- C8 (counterexample): `decode_text` does not replace a remaining
backslash-plus-line-feed pair, because the second regular expression's `.`
does not match a line feed: on the four-character input `\\` `\\` LF LF the
code keeps `\\` LF while the claimed description yields LF. -/
theorem claim_C8_cex :
    decode_text "\\\\\n\n" = "\\\n" ∧
    decode_text_claimed "\\\\\n\n" = "\n" ∧
    decode_text "\\\\\n\n" ≠ decode_text_claimed "\\\\\n\n" := by
  refine ⟨?_, by decide, ?_⟩
  · rw [decode_text_eq]; decide
  · rw [decode_text_eq]; decide

/-- C8 (amended): `decode_text` first deletes every soft line break (a
backslash immediately followed by CRLF, LFCR, LF, or CR), and only
afterwards replaces each remaining backslash-plus-character pair whose
second character is not a line feed with the bare character (a backslash
immediately followed by a line feed is kept); applied to the section 8
example raw value it yields "[testtest:]". -/
theorem claim_C8_amended :
    (∀ s : String, decode_text s = String.mk (unescape_rest (strip_soft_breaks s.toList))) ∧
    decode_text "[test\\\ntest\\:\\]" = "[testtest:]" := by
  refine ⟨decode_text_eq, ?_⟩
  rw [decode_text_eq]
  decide

/-- C9: parsing the round-trip example succeeds and serializing the result
through the canonical whitespace-free writer reproduces exactly the same
string. -/
theorem claim_C9 :
    display_result (collection (str
      "(;FF[4];C[a];C[b](;C[c])(;C[d];C[e])(;C[f](;C[g];C[h];C[i])(;C[j])))")) =
      some "(;FF[4];C[a];C[b](;C[c])(;C[d];C[e])(;C[f](;C[g];C[h];C[i])(;C[j])))" := by
  decide

/-! ## Witnesses -/

/-- Witness for C1, at the concrete failing input "x". -/
theorem claim_C1_w :
    (⟨1, 1, 0, ["[ \t\r\nv]", "("]⟩ : ParseError).offset =
        (parse_collection (parse_fuel (str "x")) (str "x") ParseState.new 0).2.max_err_pos ∧
    (⟨1, 1, 0, ["[ \t\r\nv]", "("]⟩ : ParseError).line =
        (pos_to_line (str "x") (⟨1, 1, 0, ["[ \t\r\nv]", "("]⟩ : ParseError).offset).1 ∧
    (⟨1, 1, 0, ["[ \t\r\nv]", "("]⟩ : ParseError).column =
        (pos_to_line (str "x") (⟨1, 1, 0, ["[ \t\r\nv]", "("]⟩ : ParseError).offset).2 ∧
    (⟨1, 1, 0, ["[ \t\r\nv]", "("]⟩ : ParseError).expected =
        (parse_collection (parse_fuel (str "x")) (str "x") ParseState.new 0).2.expected :=
  (claim_C1 (str "x")).2 ⟨1, 1, 0, ["[ \t\r\nv]", "("]⟩ rfl

/-- Witness for C2, at the three-letter identifier "FFF". -/
theorem claim_C2_w :
    str "FFF" ≠ [] ∧ (∀ c ∈ str "FFF", 'A' ≤ c ∧ c ≤ 'Z') ∧
    (∃ st2 : ParseState,
      parse_prop_ident ((str "FFF").length + 1) (str "FFF") ParseState.new 0 =
        (RuleResult.Matched (str "FFF").length (String.mk (str "FFF")), st2)) :=
  ⟨by decide, by decide, claim_C2.1 (str "FFF") (by decide) (by decide) ParseState.new⟩

/-- Witness for C3, at a property list binding "CA" twice. -/
theorem claim_C3_w :
    ¬ (([("CA", ["UTF-8"]), ("CA", ["4"])] :
        List (String × List String)).map Prod.fst).Nodup ∧
    build_props [("CA", ["UTF-8"]), ("CA", ["4"])] [] =
      Except.error "duplicated properties" :=
  ⟨by decide, claim_C3.1 [("CA", ["UTF-8"]), ("CA", ["4"])] (by decide)⟩

/-- Witness for C4, at a concrete two-node sequence. -/
theorem claim_C4_w :
    chain_nodes [SgfNode.mk [("FF", ["4"])] [], SgfNode.mk [("C", ["a"])] []] =
      chain_of [SgfNode.mk [("FF", ["4"])] [], SgfNode.mk [("C", ["a"])] []] ∧
    (chain_nodes [SgfNode.mk [("FF", ["4"])] [], SgfNode.mk [("C", ["a"])] []]).properties =
      ([SgfNode.mk [("FF", ["4"])] [], SgfNode.mk [("C", ["a"])] []].headD
        (SgfNode.mk [] [])).properties ∧
    (chain_nodes [SgfNode.mk [("FF", ["4"])] [], SgfNode.mk [("C", ["a"])] []]).leaf =
      [SgfNode.mk [("FF", ["4"])] [], SgfNode.mk [("C", ["a"])] []].getLastD
        (SgfNode.mk [] []) :=
  claim_C4 [SgfNode.mk [("FF", ["4"])] [], SgfNode.mk [("C", ["a"])] []]
    (by simp)
    (by
      intro n hn
      rcases List.mem_cons.mp hn with rfl | hn2
      · rfl
      · rcases List.mem_cons.mp hn2 with rfl | hn3
        · rfl
        · cases hn3)

/-- Witness for C5, at a concrete one-node chain with two variations. -/
theorem claim_C5_w :
    append_at_leaf (chain_nodes [SgfNode.mk [("B", ["aa"])] []])
        [SgfNode.mk [("W", ["bb"])] [], SgfNode.mk [("W", ["cc"])] []] =
      chain_attach [SgfNode.mk [("B", ["aa"])] []]
        [SgfNode.mk [("W", ["bb"])] [], SgfNode.mk [("W", ["cc"])] []] :=
  claim_C5.1 [SgfNode.mk [("B", ["aa"])] []]
    [SgfNode.mk [("W", ["bb"])] [], SgfNode.mk [("W", ["cc"])] []]
    (by simp)
    (by
      intro n hn
      rcases List.mem_cons.mp hn with rfl | hn2
      · rfl
      · cases hn2)

/-- Witness for C6, at a concrete tracker state and a later failure. -/
theorem claim_C6_w :
    ((⟨5, 0, ["x"]⟩ : ParseState).max_err_pos < 7 →
      (⟨5, 0, ["x"]⟩ : ParseState).mark_failure 7 "y" =
        { max_err_pos := 7, suppress_fail := (⟨5, 0, ["x"]⟩ : ParseState).suppress_fail,
          expected := ["y"] }) ∧
    (7 = (⟨5, 0, ["x"]⟩ : ParseState).max_err_pos →
      (⟨5, 0, ["x"]⟩ : ParseState).mark_failure 7 "y" =
        { (⟨5, 0, ["x"]⟩ : ParseState) with
          expected := hash_insert (⟨5, 0, ["x"]⟩ : ParseState).expected "y" }) ∧
    (7 < (⟨5, 0, ["x"]⟩ : ParseState).max_err_pos →
      (⟨5, 0, ["x"]⟩ : ParseState).mark_failure 7 "y" = ⟨5, 0, ["x"]⟩) ∧
    (⟨5, 0, ["x"]⟩ : ParseState).max_err_pos ≤
      ((⟨5, 0, ["x"]⟩ : ParseState).mark_failure 7 "y").max_err_pos :=
  claim_C6 ⟨5, 0, ["x"]⟩ 7 "y" rfl

/-- Witness for C7, at a run of whitespace (including a letter v) before a
parenthesis. -/
theorem claim_C7_w :
    (str " v(").length - 0 < 10 ∧
    ws_run 10 (str " v(") ParseState.new 0 =
      (0 + (((str " v(").drop 0).takeWhile is_ws_char).length,
       ParseState.new.mark_failure
         (0 + (((str " v(").drop 0).takeWhile is_ws_char).length) "[ \t\r\nv]") :=
  ⟨by decide, claim_C7.2 10 (str " v(") ParseState.new 0 (by decide)⟩

/-- Witness for C10, at a node holding two properties. -/
theorem claim_C10_w :
    ("GC" : String) ≠ "FF" ∧
    prop_lookup ((SgfNode.mk [("GC", ["x"]), ("FF", ["3"])] []).set_property
        "FF" ["4"]).properties "GC" =
      prop_lookup (SgfNode.mk [("GC", ["x"]), ("FF", ["3"])] []).properties "GC" :=
  ⟨by decide,
    (claim_C10.1 (SgfNode.mk [("GC", ["x"]), ("FF", ["3"])] []) "FF" ["4"]).2.1 "GC"
      (by decide)⟩

end Sgf
